import Mathlib

/-!
Verification of the bookmark-exporter core (`twitter_bookmark_exporter.py`):
a shallow embedding of the `Tweet` record, the DOM-node view consumed by
`_parse_tweet_element`, the dedup fold of `_collect_all_bookmarks`, and the
sort / chunk / render pipeline of `_save_to_markdown`, together with theorems
about the spec's testable properties.

Strings are modelled as Lean `String` (a list of unicode scalar values, the
same code-point sequences Python `str` compares); Python string library calls
(`split`, `in`, `startswith`-style locator filters, `re.sub`) are re-implemented
below at the character-list level so that every definition evaluates inside the
kernel.
-/

/-! ## Character-level string primitives -/

/-- `listStartsWith p l` is true when `p` is an initial run of `l`. -/
def listStartsWith : List Char → List Char → Bool
  | [], _ => true
  | _ :: _, [] => false
  | a :: as, b :: bs => a == b && listStartsWith as bs

/-- `listHasSub needle hay` is true when `needle` occurs contiguously inside
`hay` — the semantics of Python's `needle in hay` on strings. -/
def listHasSub (needle : List Char) : List Char → Bool
  | [] => needle.isEmpty
  | c :: cs => listStartsWith needle (c :: cs) || listHasSub needle cs

/-- Python's `needle in hay` substring test; also the semantics of a
Playwright `[attr*="needle"]` locator filter on an attribute value. -/
def strContains (hay needle : String) : Bool := listHasSub needle.data hay.data

/-- Worker for `pySplit`: scans left to right, splitting at each leftmost
non-overlapping occurrence of `sep`. The fuel starts at the input length and
is enough because each recursive call consumes at least one character
(`sep` is nonempty at every call site). -/
def splitGo (sep : List Char) : Nat → List Char → List Char → List (List Char)
  | _, [], acc => [acc.reverse]
  | 0, _ :: _, acc => [acc.reverse]
  | fuel + 1, c :: cs, acc =>
    if listStartsWith sep (c :: cs) then
      acc.reverse :: splitGo sep fuel ((c :: cs).drop sep.length) []
    else
      splitGo sep fuel cs (c :: acc)

/-- Python's `s.split(sep)` for a nonempty separator: parts between leftmost
non-overlapping occurrences of `sep`, always at least one part. (Python
raises on an empty separator; no call site passes one, and this model returns
the whole string then.) -/
def pySplit (s sep : String) : List String :=
  if sep.data.isEmpty then [s]
  else (splitGo sep.data s.data.length s.data []).map String.mk

/-- The id derivation of `_parse_tweet_element` line 221:
`tweet_url.split('/status/')[-1].split('?')[0]` — everything after the last
occurrence of `/status/`, truncated at the first `?`. -/
def statusIdOf (url : String) : String :=
  (pySplit ((pySplit url "/status/").getLastD "") "?").headD ""

/-- Modelled from the spec's words (§4.2 "take the path segment following
`/status/` in the permalink, strip any trailing query string"): the run of
characters after `/status/` up to the next `/` or `?`. Used only to compare
the spec's id derivation with the code's `statusIdOf`. -/
def specStatusSegment (url : String) : String :=
  String.mk ((((pySplit url "/status/").getD 1 "").data).takeWhile
    (fun c => c ≠ '/' ∧ c ≠ '?'))

/-! ## `re.sub(r'&name=\w+', '&name=large', src)` (line 246) -/

/-- Python regex `\w`: a word character. The image URLs at issue are ASCII,
for which `\w` is exactly alphanumerics and underscore. -/
def isWordChar (c : Char) : Bool := c.isAlphanum || c == '_'

/-- Length of the leading run of word characters. -/
def leadingWordCount : List Char → Nat
  | [] => 0
  | c :: cs => if isWordChar c then leadingWordCount cs + 1 else 0

/-- If `cs` begins with a match of `&name=\w+` (that is, the literal `&name=`
followed by at least one word character), the length of the maximal (greedy)
match; otherwise `none`. -/
def namePatLen (cs : List Char) : Option Nat :=
  if listStartsWith "&name=".data cs then
    let n := leadingWordCount (cs.drop 6)
    if n = 0 then none else some (6 + n)
  else none

/-- Worker for `subNameLarge`, scanning left to right: at each position, if
`&name=\w+` matches there, the match is replaced by `&name=large` and scanning
resumes after the match; otherwise one character is copied. Fuel starts at the
input length; a match consumes at least 7 characters. -/
def subNameGo : Nat → List Char → List Char
  | _, [] => []
  | 0, l => l
  | fuel + 1, c :: cs =>
    match namePatLen (c :: cs) with
    | some n => "&name=large".data ++ subNameGo fuel ((c :: cs).drop n)
    | none => c :: subNameGo fuel cs

/-- Python's `re.sub(r'&name=\w+', '&name=large', src)`: every non-overlapping
occurrence of `&name=` followed by a maximal nonempty run of word characters is
replaced by `&name=large`. -/
def subNameLarge (s : String) : String := String.mk (subNameGo s.data.length s.data)

/-- `noNameMatch cs` is true when no position of `cs` starts a match of
`&name=\w+` — in particular when `&name=` does not occur at all, as in an
image URL whose `name` size parameter is introduced by `?`. -/
def noNameMatch : List Char → Bool
  | [] => true
  | c :: cs => (namePatLen (c :: cs)).isNone && noNameMatch cs

/-! ## The record model: `Tweet` (dataclass, lines 23-34) -/

/-- The `Tweet` dataclass: id, author fields, body text, ISO timestamp (or
empty), absolute permalink, image and video URL lists, and an optional nested
quoted tweet. -/
inductive Tweet where
  | mk (id author_name author_handle text timestamp url : String)
       (images videos : List String) (quoted_tweet : Option Tweet) : Tweet

def Tweet.id : Tweet → String | .mk i _ _ _ _ _ _ _ _ => i
def Tweet.author_name : Tweet → String | .mk _ a _ _ _ _ _ _ _ => a
def Tweet.author_handle : Tweet → String | .mk _ _ a _ _ _ _ _ _ => a
def Tweet.text : Tweet → String | .mk _ _ _ t _ _ _ _ _ => t
def Tweet.timestamp : Tweet → String | .mk _ _ _ _ ts _ _ _ _ => ts
def Tweet.url : Tweet → String | .mk _ _ _ _ _ u _ _ _ => u
def Tweet.images : Tweet → List String | .mk _ _ _ _ _ _ im _ _ => im
def Tweet.videos : Tweet → List String | .mk _ _ _ _ _ _ _ v _ => v
def Tweet.quoted_tweet : Tweet → Option Tweet | .mk _ _ _ _ _ _ _ _ q => q

/-! ## The DOM-node view consumed by `_parse_tweet_element`

One `Node` records exactly what the parser queries from one
`article[data-testid="tweet"]` element, in document order:
anchor `href`s, the author block's inner text, the tweet-text block's inner
text, the `time` element's `datetime` attribute, all `img` `src`s, all
`iframe` `src`s, the `href`s of anchors inside `[data-testid="card.wrapper"]`,
whether any `video` element is present, and the nested tweet article inside a
`div[role='link'][tabindex='0']` quote container when there is one. -/
inductive Node where
  | mk (anchorHrefs : List String) (userNameText tweetTextOpt timeOpt : Option String)
       (imgSrcs iframeSrcs cardHrefs : List String) (hasNativeVideo : Bool)
       (quotedNode : Option Node) : Node

def Node.anchorHrefs : Node → List String | .mk a _ _ _ _ _ _ _ _ => a
def Node.userNameText : Node → Option String | .mk _ u _ _ _ _ _ _ _ => u
def Node.tweetTextOpt : Node → Option String | .mk _ _ t _ _ _ _ _ _ => t
def Node.timeOpt : Node → Option String | .mk _ _ _ t _ _ _ _ _ => t
def Node.imgSrcs : Node → List String | .mk _ _ _ _ i _ _ _ _ => i
def Node.iframeSrcs : Node → List String | .mk _ _ _ _ _ i _ _ _ => i
def Node.cardHrefs : Node → List String | .mk _ _ _ _ _ _ c _ _ => c
def Node.hasNativeVideo : Node → Bool | .mk _ _ _ _ _ _ _ h _ => h
def Node.quotedNode : Node → Option Node | .mk _ _ _ _ _ _ _ _ q => q

/-! ## Video extraction (lines 249-285) -/

/-- Appending step of the iframe loops (lines 259-262): `if src and src not in
videos: videos.append(src)`. -/
def iframeStep (vs : List String) (src : String) : List String :=
  if src ≠ "" then (if src ∈ vs then vs else vs ++ [src]) else vs

/-- Stage 1 (lines 252-262): the two embed selectors are scanned in order —
first every iframe whose `src` contains `youtube.com/embed/`, then every one
whose `src` contains `player.vimeo.com/video/` — appending each new `src` to
the shared `videos` list. -/
def iframeVids (srcs : List String) : List String :=
  (srcs.filter (fun s => strContains s "player.vimeo.com/video/")).foldl iframeStep
    ((srcs.filter (fun s => strContains s "youtube.com/embed/")).foldl iframeStep [])

/-- The known video-hosting domains of line 272. -/
def videoDomains : List String := ["youtu.be", "youtube.com", "vimeo.com", "dailymotion.com"]

/-- Appending step of the card-link loop (lines 268-274): `if href`, then the
domain test, then `if href not in videos: videos.append(href)`. -/
def cardStep (vs : List String) (href : String) : List String :=
  if href ≠ "" then
    if videoDomains.any fun d => strContains href d then
      if href ∈ vs then vs else vs ++ [href]
    else vs
  else vs

/-- Stage 2 seen on its own: the card-link loop run from an empty list. -/
def cardVids (hrefs : List String) : List String := hrefs.foldl cardStep []

/-- The three-stage video fallback chain of lines 249-285: iframe embeds; if
that found nothing, card links on known video domains (the loop keeps
appending to the same — then empty — `videos` list); if still nothing and a
native `video` element exists, the post's own absolute permalink. -/
def videosChain (iframeSrcs cardHrefs : List String) (hasNativeVideo : Bool)
    (tweet_url : String) : List String :=
  let vs1 := iframeVids iframeSrcs
  let vs2 := if vs1.isEmpty then cardHrefs.foldl cardStep vs1 else vs1
  if vs2.isEmpty then
    if hasNativeVideo then
      let u := "https://twitter.com" ++ tweet_url
      if u ∈ vs2 then vs2 else vs2 ++ [u]
    else vs2
  else vs2

/-! ## `_parse_tweet_element` (lines 211-315) -/

/-- Python's `str.strip()` (line 226): drop leading and trailing whitespace.
(Python's whitespace class also covers a few rarer control characters;
`Char.isWhitespace` covers space, tab, CR and LF, which is what author text
contains.) -/
def pyStrip (s : String) : String :=
  String.mk (((s.data.dropWhile Char.isWhitespace).reverse.dropWhile
    Char.isWhitespace).reverse)

/-- The parser for one tweet node. Control flow from the source: the first
anchor whose `href` contains `/status/` gates validity (`return None` when
absent or falsy); the id comes from `statusIdOf`; author text is stripped and
split on newlines (name, then handle, with `"Unknown"`/`"@unknown"`
defaults); body text and timestamp default to `""`; images are the media-host
`img` sources upgraded by `subNameLarge`; videos by `videosChain`; and the
quote container's nested article is parsed recursively, the result accepted
only when it succeeds and its id differs from the outer id. -/
def parse_tweet_element : Node → Option Tweet
  | Node.mk anchorHrefs userNameText tweetTextOpt timeOpt imgSrcs iframeSrcs cardHrefs
      hasNativeVideo quotedNode =>
    match (anchorHrefs.filter fun h => strContains h "/status/").head? with
    | none => none
    | some tweet_url =>
      if tweet_url = "" then none
      else
        let tweet_id := statusIdOf tweet_url
        let author_parts := (pySplit (pyStrip (userNameText.getD "Unknown")) "\n")
        let author_name := author_parts.headD "Unknown"
        let author_handle := author_parts.getD 1 "@unknown"
        let tweet_text := tweetTextOpt.getD ""
        let timestamp := timeOpt.getD ""
        let images :=
          (imgSrcs.filter fun s => strContains s "pbs.twimg.com/media").map subNameLarge
        let videos := videosChain iframeSrcs cardHrefs hasNativeVideo tweet_url
        let parsed_quoted_tweet : Option Tweet :=
          match quotedNode with
          | none => none
          | some q =>
            match parse_tweet_element q with
            | some tq => if tq.id ≠ tweet_id then some tq else none
            | none => none
        some (Tweet.mk tweet_id author_name author_handle tweet_text timestamp
          ("https://twitter.com" ++ tweet_url) images videos parsed_quoted_tweet)

/-! ## The collection loop's dedup fold (`_collect_all_bookmarks`, lines 143-157)

State: the seen-id set (modelled up to membership as a list of ids) and the
collected list. One loop iteration folds the batch returned by
`_extract_tweets_from_page` over `collectStep`; a run folds a whole sequence
of such batches. -/

/-- Lines 154-157: a tweet whose id is already seen is discarded; otherwise
its id joins the seen-set and the tweet is appended to the collected list. -/
def collectStep (st : List String × List Tweet) (t : Tweet) : List String × List Tweet :=
  if t.id ∈ st.1 then st else (t.id :: st.1, st.2 ++ [t])

/-- The collection loop over a sequence of per-iteration extraction batches,
starting from an empty seen-set and an empty collected list. -/
def collect_loop (batches : List (List Tweet)) : List String × List Tweet :=
  batches.foldl (fun st b => b.foldl collectStep st) ([], [])

/-- Written from the spec's words (§4.1 step 2, dedup invariant): keep the
first occurrence of each id, in first-seen order, given an initial seen-set. -/
def specFirstSeen : List Tweet → List String → List Tweet
  | [], _ => []
  | t :: ts, seen =>
    if t.id ∈ seen then specFirstSeen ts seen
    else t :: specFirstSeen ts (t.id :: seen)

/-- The seen-set accumulated along `specFirstSeen`. -/
def specSeen : List Tweet → List String → List String
  | [], seen => seen
  | t :: ts, seen =>
    if t.id ∈ seen then specSeen ts seen
    else specSeen ts (t.id :: seen)

/-! ## Sorting (`_save_to_markdown` line 339)

`self.tweets_collected.sort(key=lambda t: t.timestamp, reverse=True)` —
CPython's stable sort, descending by the timestamp string. String comparison
in Python is lexicographic on code points, re-implemented here as
`charListLe`; the sort itself is modelled as the stable insertion sort that
places each earlier element before the later-collected elements whose key is
not larger. -/

/-- Lexicographic (code-point) `≤` on character lists — Python string `<=`. -/
def charListLe : List Char → List Char → Bool
  | [], _ => true
  | _ :: _, [] => false
  | a :: as, b :: bs => if a < b then true else if b < a then false else charListLe as bs

/-- Python `s <= t` on strings. -/
def tsLe (s t : String) : Bool := charListLe s.data t.data

/-- Insert `a` into a descending-sorted list, before the first element whose
timestamp is `≤ a`'s — so `a`, which came earlier in the original list, stays
before every equal-key element that came later (stability). -/
def orderedInsertDesc (a : Tweet) : List Tweet → List Tweet
  | [] => [a]
  | b :: l => if tsLe b.timestamp a.timestamp then a :: b :: l else b :: orderedInsertDesc a l

/-- The stable descending-by-timestamp sort of line 339. -/
def sortDesc : List Tweet → List Tweet
  | [] => []
  | a :: l => orderedInsertDesc a (sortDesc l)

/-- The effect of one `_save_to_markdown` call on the collected list it was
handed: the empty list is returned untouched (line 334's early return);
otherwise the list is sorted in place (line 339). -/
def save_effect : List Tweet → List Tweet
  | [] => []
  | a :: l => sortDesc (a :: l)

/-! ## Chunking (lines 356-357)

`for i in range(0, len(tweets), n): chunk = tweets[i:i+n]` — successive
slices of length `n` at offsets `0, n, 2n, …`, which is the iterated
take/drop below. Fuel starts at the list length and is enough because each
step drops at least one element when `n ≥ 1`; Python's `range` raises on step
`0`, which no caller passes. -/

def chunksGo (n : Nat) : Nat → List Tweet → List (List Tweet)
  | _, [] => []
  | 0, _ :: _ => []
  | fuel + 1, t :: ts => (t :: ts).take n :: chunksGo n fuel ((t :: ts).drop n)

def chunksOf (n : Nat) (l : List Tweet) : List (List Tweet) := chunksGo n l.length l

/-! ## Rendering (`_write_tweet_to_markdown`, lines 400-503)

The run modelled here uses the default `download_images_locally = False`, so
every image is referenced by its remote URL (the only branch the claims
touch). `formatTs` models the composition
`datetime.fromisoformat(ts.replace('Z', '+00:00')).strftime('%Y-%m-%d %H:%M:%S')`
of line 409 on well-formed ISO-8601 input: the 10-character date, a space,
the 8-character time. -/

def formatTs (ts : String) : String :=
  String.mk (ts.data.take 10) ++ " " ++ String.mk ((ts.data.drop 11).take 8)

/-- The quoted-tweet block (lines 459-498). -/
def renderQuoted (includeImages : Bool) (qt : Tweet) : String :=
  "\n\n> **Quoted Tweet:**\n" ++
  "> **" ++ qt.author_name ++ " (" ++ qt.author_handle ++ ")**\n\n" ++
  String.join ((pySplit qt.text "\n").map fun line => "> " ++ line ++ "\n") ++ "\n" ++
  (if qt.timestamp ≠ "" then "> *[" ++ formatTs qt.timestamp ++ "](" ++ qt.url ++ ")*\n\n"
   else "> *[Link](" ++ qt.url ++ ")*\n\n") ++
  (if includeImages ∧ qt.images ≠ [] then
    "> **Images (quoted):**\n\n" ++
      String.join (qt.images.map fun u => "> ![Quoted Image](" ++ u ++ ")\n\n")
   else "") ++
  (if qt.videos ≠ [] then
    "> **Videos (quoted):**\n\n" ++
      String.join (qt.videos.map fun u => "> - [Quoted Video Link](" ++ u ++ ")\n") ++ "\n"
   else "")

/-- One tweet's markdown (lines 400-503), in the source's write order. -/
def renderTweet (includeImages : Bool) (t : Tweet) : String :=
  "## " ++ t.author_name ++ " (" ++ t.author_handle ++ ")\n\n" ++
  (if t.timestamp ≠ "" then "*[" ++ formatTs t.timestamp ++ "](" ++ t.url ++ ")*\n\n"
   else "*[Link](" ++ t.url ++ ")*\n\n") ++
  t.text ++ "\n\n" ++
  (if includeImages ∧ t.images ≠ [] then
    "**Images:**\n\n" ++ String.join (t.images.map fun u => "![Image](" ++ u ++ ")\n\n")
   else "") ++
  (if t.videos ≠ [] then
    "**Videos:**\n\n" ++ String.join (t.videos.map fun u => "- [Video Link](" ++ u ++ ")\n")
      ++ "\n"
   else "") ++
  (match t.quoted_tweet with
   | some qt => renderQuoted includeImages qt
   | none => "") ++
  "---\n\n"

/-! ## `_save_to_markdown` (lines 332-398) -/

/-- Python `f"{k:03d}"`: decimal, left-padded with zeros to width 3. -/
def padTo3 (k : Nat) : String :=
  let s := toString k
  String.mk (List.replicate (3 - s.data.length) '0') ++ s

/-- `ts[:10] if ts else "unknown"` (lines 350-353 and 362-363). -/
def dateOr (ts : String) : String :=
  if ts = "" then "unknown" else String.mk (ts.data.take 10)

/-- The chunk's filename (lines 360-366): 1-based zero-padded index and the
date range of the chunk's first and last entries. -/
def fileName (k : Nat) (chunk : List Tweet) : String :=
  match chunk with
  | [] => "bookmarks_" ++ padTo3 k ++ ".md"
  | c :: cs =>
    "bookmarks_" ++ padTo3 k ++ "_" ++ dateOr c.timestamp ++ "_to_" ++
      dateOr ((c :: cs).getLast (by simp)).timestamp ++ ".md"

/-- Everything a chunk's document writes before the clock reading
(lines 372-375 up to the export-time stamp). -/
def fileHead (k : Nat) : String :=
  "# Twitter Bookmarks - Part " ++ toString k ++ "\n\n*Exported on "

/-- Everything a chunk's document writes after the clock reading
(lines 375-396): first-chunk aggregate metadata, the per-file count, the
separator, and every tweet of the chunk in order. -/
def fileTail (includeImages : Bool) (k total : Nat) (oldest newest : String)
    (chunk : List Tweet) : String :=
  "*\n\n" ++
  (if k = 1 then
    "**Total Bookmarks in Export:** " ++ toString total ++ "\n\n" ++
      "**Overall Date Range:** " ++ oldest ++ " to " ++ newest ++ "\n\n"
   else "") ++
  "**Tweets in this file:** " ++ toString chunk.length ++ "\n\n" ++ "---\n\n" ++
  String.join (chunk.map (renderTweet includeImages))

/-- The per-chunk write loop (lines 356-398) over the chunk list, carrying the
1-based file number. -/
def buildFiles (includeImages : Bool) (total : Nat) (oldest newest now : String) :
    Nat → List (List Tweet) → List (String × String)
  | _, [] => []
  | k, c :: cs =>
    (fileName k c, fileHead k ++ now ++ fileTail includeImages k total oldest newest c)
      :: buildFiles includeImages total oldest newest now (k + 1) cs

/-- `_save_to_markdown` as a function of the collected list and the rendered
clock reading `now` (the output of `datetime.now().strftime(...)`, line 375):
the list of `(filename, contents)` pairs written. Returns nothing for an
empty collection (line 334), otherwise sorts, derives the aggregate metadata
(lines 341-353), chunks, and writes each chunk. -/
def save_to_markdown (tweetsPerFile : Nat) (includeImages : Bool)
    (collected : List Tweet) (now : String) : List (String × String) :=
  match collected with
  | [] => []
  | _ :: _ =>
    let sorted := sortDesc collected
    let total := sorted.length
    let newestDate := match sorted.head? with
      | some t => dateOr t.timestamp
      | none => "unknown"
    let oldestDate := match sorted.getLast? with
      | some t => dateOr t.timestamp
      | none => "unknown"
    buildFiles includeImages total oldestDate newestDate now 1 (chunksOf tweetsPerFile sorted)

/-- The clock-independent part of `save_to_markdown`'s output: for each chunk
its filename and the contents split around the spliced-in clock reading. -/
def buildTemplates (includeImages : Bool) (total : Nat) (oldest newest : String) :
    Nat → List (List Tweet) → List (String × String × String)
  | _, [] => []
  | k, c :: cs =>
    (fileName k c, fileHead k, fileTail includeImages k total oldest newest c)
      :: buildTemplates includeImages total oldest newest (k + 1) cs

/-- The clock-independent file templates of a `save_to_markdown` call. -/
def fileTemplates (tweetsPerFile : Nat) (includeImages : Bool)
    (collected : List Tweet) : List (String × String × String) :=
  match collected with
  | [] => []
  | _ :: _ =>
    let sorted := sortDesc collected
    let total := sorted.length
    let newestDate := match sorted.head? with
      | some t => dateOr t.timestamp
      | none => "unknown"
    let oldestDate := match sorted.getLast? with
      | some t => dateOr t.timestamp
      | none => "unknown"
    buildTemplates includeImages total oldestDate newestDate 1 (chunksOf tweetsPerFile sorted)

/-! ## The full collection loop with checkpoint saves (lines 147-191)

Beyond the dedup fold, each iteration ends by checking
`len(tweets_collected) % 500 == 0 and len(tweets_collected) > 0` (line 189)
and, when it holds, running `_save_to_markdown` — whose one effect on the
loop state is the in-place sort of the collected list (`save_effect`). The
`saves` field records the collected count at each triggered checkpoint, in
order. -/

structure LoopState where
  seen : List String
  collected : List Tweet
  saves : List Nat

/-- One iteration of the `while True` loop: fold the extracted batch through
`collectStep`, then the line-189 checkpoint check. -/
def loopIter (st : LoopState) (batch : List Tweet) : LoopState :=
  let p := batch.foldl collectStep (st.seen, st.collected)
  if p.2.length % 500 == 0 && decide (0 < p.2.length) then
    ⟨p.1, save_effect p.2, st.saves ++ [p.2.length]⟩
  else ⟨p.1, p.2, st.saves⟩

/-- The collection loop run over a sequence of extraction batches, with
checkpoint bookkeeping. -/
def runLoop (batches : List (List Tweet)) : LoopState :=
  batches.foldl loopIter ⟨[], [], []⟩

/-- The collected count at the end of each iteration, computed declaratively
from the dedup semantics. -/
def iterCounts : List (List Tweet) → List String → Nat → List Nat
  | [], _, _ => []
  | b :: bs, seen, len =>
    (len + (specFirstSeen b seen).length)
      :: iterCounts bs (specSeen b seen) (len + (specFirstSeen b seen).length)

/-! ## Concrete demonstration inputs used by witnesses and counterexamples -/

/-- The descending comparison the sorted list is pairwise ordered by. -/
def byTsDesc (x y : Tweet) : Prop := tsLe y.timestamp x.timestamp = true

def tOld : Tweet := Tweet.mk "1" "" "" "" "2020-01-01T00:00:00.000Z" "" [] [] none

def tNew : Tweet := Tweet.mk "2" "" "" "" "2021-01-01T00:00:00.000Z" "" [] [] none

def demoA : Tweet := Tweet.mk "a" "A" "@a" "" "2024-01-03T10:00:00.000Z" "" [] [] none

def demoB : Tweet := Tweet.mk "b" "B" "@b" "" "2024-01-01T09:00:00.000Z" "" [] [] none

def demoC : Tweet := Tweet.mk "c" "C" "@c" "" "2024-01-02T08:00:00.000Z" "" [] [] none

def nodeC3 : Node := Node.mk ["/u/status/77"] none none none []
  ["https://www.youtube.com/embed/abc"] [] true none

def tC3 : Tweet := Tweet.mk "77" "Unknown" "@unknown" "" ""
  "https://twitter.com/u/status/77" [] ["https://www.youtube.com/embed/abc"] none

def nodeC2 : Node := Node.mk ["/u/status/5"] none none none [] [] [] false
  (some (Node.mk ["/u/status/5"] none none none [] [] [] false none))

def tC2 : Tweet := Tweet.mk "5" "Unknown" "@unknown" "" ""
  "https://twitter.com/u/status/5" [] [] none

def nodeC6 : Node := Node.mk ["/a/status/123/photo/1"] none none none [] [] [] false none

def tC6 : Tweet := Tweet.mk "123/photo/1" "Unknown" "@unknown" "" ""
  "https://twitter.com/a/status/123/photo/1" [] [] none

def nodeC10 : Node := Node.mk ["/u/status/9"] none none none
  ["https://pbs.twimg.com/media/ab?format=jpg&name=small",
   "https://pbs.twimg.com/media/cd?name=small",
   "https://other.example/x.png"] [] [] false none

def tC10 : Tweet := Tweet.mk "9" "Unknown" "@unknown" "" ""
  "https://twitter.com/u/status/9"
  ["https://pbs.twimg.com/media/ab?format=jpg&name=large",
   "https://pbs.twimg.com/media/cd?name=small"] [] none

/-- One synthetic tweet per natural number, with pairwise-distinct ids. -/
def mkNat (k : Nat) : Tweet :=
  Tweet.mk (String.mk (List.replicate k 'a')) "" "" "" "" "" [] [] none

/-- A single extraction batch of 501 tweets with distinct ids: one iteration
carries the collected count from 0 across the 500 boundary to 501. -/
def bigBatch : List Tweet := (List.range 501).map mkNat

/-! ## Lemmas: the dedup fold -/

theorem foldl_collectStep (b : List Tweet) : ∀ (seen : List String) (c : List Tweet),
    b.foldl collectStep (seen, c) = (specSeen b seen, c ++ specFirstSeen b seen) := by
  induction b with
  | nil => intro seen c; simp [specSeen, specFirstSeen]
  | cons t ts ih =>
    intro seen c
    by_cases h : t.id ∈ seen
    · simp [List.foldl_cons, collectStep, h, specSeen, specFirstSeen, ih]
    · simp [List.foldl_cons, collectStep, h, specSeen, specFirstSeen, ih]

theorem specSeen_append (a b : List Tweet) : ∀ seen,
    specSeen (a ++ b) seen = specSeen b (specSeen a seen) := by
  induction a with
  | nil => intro seen; simp [specSeen]
  | cons t ts ih =>
    intro seen
    by_cases h : t.id ∈ seen <;> simp [specSeen, h, ih]

theorem specFirstSeen_append (a b : List Tweet) : ∀ seen,
    specFirstSeen (a ++ b) seen = specFirstSeen a seen ++ specFirstSeen b (specSeen a seen) := by
  induction a with
  | nil => intro seen; simp [specFirstSeen, specSeen]
  | cons t ts ih =>
    intro seen
    by_cases h : t.id ∈ seen <;> simp [specFirstSeen, specSeen, h, ih]

theorem collect_loop_foldl (batches : List (List Tweet)) :
    ∀ (seen : List String) (c : List Tweet),
    batches.foldl (fun st b => b.foldl collectStep st) (seen, c)
      = (specSeen batches.flatten seen, c ++ specFirstSeen batches.flatten seen) := by
  induction batches with
  | nil => intro seen c; simp [specSeen, specFirstSeen]
  | cons b bs ih =>
    intro seen c
    simp only [List.foldl_cons, foldl_collectStep, ih, List.flatten_cons,
      specSeen_append, specFirstSeen_append, List.append_assoc]

theorem specFirstSeen_nodup (ts : List Tweet) : ∀ seen,
    ((specFirstSeen ts seen).map Tweet.id).Nodup ∧
      ∀ i ∈ (specFirstSeen ts seen).map Tweet.id, i ∉ seen := by
  induction ts with
  | nil => intro seen; simp [specFirstSeen]
  | cons t ts ih =>
    intro seen
    by_cases h : t.id ∈ seen
    · simpa [specFirstSeen, h] using ih seen
    · have ih' := ih (t.id :: seen)
      constructor
      · simp only [specFirstSeen, h, if_false, List.map_cons, List.nodup_cons]
        refine ⟨fun hmem => ?_, ih'.1⟩
        exact (ih'.2 _ hmem) (List.mem_cons_self _ _)
      · intro i hi
        simp only [specFirstSeen, h, if_false, List.map_cons, List.mem_cons] at hi
        rcases hi with rfl | hi
        · exact h
        · exact fun hs => (ih'.2 i hi) (List.mem_cons_of_mem _ hs)

/-- C1: for every sequence of extraction batches fed to the collection loop,
the collected list carries pairwise-distinct ids, and it is exactly the
first-occurrence-by-id subsequence of the concatenated extraction stream: a
post whose id was already seen is discarded, each new unique post is appended
once, in first-seen order. -/
theorem collect_loop_dedup (batches : List (List Tweet)) :
    ((collect_loop batches).2.map Tweet.id).Nodup ∧
      (collect_loop batches).2 = specFirstSeen batches.flatten [] := by
  have h := collect_loop_foldl batches [] []
  constructor
  · rw [collect_loop, h]
    simpa using (specFirstSeen_nodup batches.flatten []).1
  · rw [collect_loop, h]
    simp

/-! ## Lemmas: the stable descending sort -/

theorem charListLe_refl : ∀ xs, charListLe xs xs = true := by
  intro xs
  induction xs with
  | nil => rfl
  | cons a as ih => simp [charListLe, lt_irrefl, ih]

theorem charListLe_total : ∀ xs ys, charListLe xs ys = true ∨ charListLe ys xs = true := by
  intro xs
  induction xs with
  | nil => intro ys; left; rfl
  | cons a as ih =>
    intro ys
    cases ys with
    | nil => right; rfl
    | cons b bs =>
      rcases lt_trichotomy a b with h | h | h
      · left; simp [charListLe, h]
      · subst h; simpa [charListLe, lt_irrefl] using ih bs
      · right; simp [charListLe, h]

theorem charListLe_trans : ∀ xs ys zs, charListLe xs ys = true → charListLe ys zs = true →
    charListLe xs zs = true := by
  intro xs
  induction xs with
  | nil => intro ys zs _ _; rfl
  | cons a as ih =>
    intro ys zs h1 h2
    cases ys with
    | nil => simp [charListLe] at h1
    | cons b bs =>
      cases zs with
      | nil => simp [charListLe] at h2
      | cons c cs =>
        by_cases hab : a < b
        · by_cases hbc : b < c
          · simp [charListLe, lt_trans hab hbc]
          · have hcb : ¬ c < b := by
              intro hcb; simp [charListLe, hbc, hcb] at h2
            have : b = c := le_antisymm (le_of_not_lt hcb) (le_of_not_lt hbc)
            subst this
            simp [charListLe, hab]
        · have hba : ¬ b < a := by
            intro hba; simp [charListLe, hab, hba] at h1
          have hab' : a = b := le_antisymm (le_of_not_lt hba) (le_of_not_lt hab)
          subst hab'
          simp only [charListLe, if_neg hab, if_neg hba] at h1
          by_cases hac : a < c
          · simp [charListLe, hac]
          · have hca : ¬ c < a := by
              intro hca; simp [charListLe, hac, hca] at h2
            simp only [charListLe, if_neg hac, if_neg hca] at h2 ⊢
            exact ih bs cs h1 h2

theorem tsLe_refl (s : String) : tsLe s s = true := charListLe_refl s.data

theorem tsLe_total (s t : String) : tsLe s t = true ∨ tsLe t s = true :=
  charListLe_total s.data t.data

theorem tsLe_trans (s t u : String) (h1 : tsLe s t = true) (h2 : tsLe t u = true) :
    tsLe s u = true := charListLe_trans s.data t.data u.data h1 h2

theorem tsLe_empty (s : String) (h : tsLe s "" = true) : s = "" := by
  cases s with
  | mk d =>
    cases d with
    | nil => rfl
    | cons c cs => simp [tsLe, charListLe] at h

theorem perm_orderedInsertDesc (a : Tweet) : ∀ l, List.Perm (orderedInsertDesc a l) (a :: l) := by
  intro l
  induction l with
  | nil => rfl
  | cons b l ih =>
    by_cases h : tsLe b.timestamp a.timestamp
    · simp [orderedInsertDesc, h]
    · simp only [orderedInsertDesc, if_neg h]
      exact (ih.cons b).trans (List.Perm.swap a b l)

theorem sortDesc_perm : ∀ l, List.Perm (sortDesc l) l := by
  intro l
  induction l with
  | nil => rfl
  | cons a l ih => exact (perm_orderedInsertDesc a (sortDesc l)).trans (ih.cons a)

theorem pairwise_orderedInsertDesc (a : Tweet) : ∀ l, l.Pairwise byTsDesc →
    (orderedInsertDesc a l).Pairwise byTsDesc := by
  intro l
  induction l with
  | nil => intro _; simp [orderedInsertDesc, byTsDesc]
  | cons b l ih =>
    intro h
    rw [List.pairwise_cons] at h
    by_cases hba : tsLe b.timestamp a.timestamp
    · rw [orderedInsertDesc, if_pos hba, List.pairwise_cons]
      refine ⟨fun x hx => ?_, List.pairwise_cons.2 h⟩
      rcases List.mem_cons.1 hx with rfl | hx
      · exact hba
      · exact tsLe_trans _ _ _ (h.1 x hx) hba
    · rw [orderedInsertDesc, if_neg hba, List.pairwise_cons]
      refine ⟨fun x hx => ?_, ih h.2⟩
      have hx' := (perm_orderedInsertDesc a l).mem_iff.1 hx
      rcases List.mem_cons.1 hx' with rfl | hx''
      · rcases tsLe_total x.timestamp b.timestamp with ht | ht
        · exact ht
        · exact absurd ht hba
      · exact h.1 x hx''

theorem sortDesc_pairwise : ∀ l, (sortDesc l).Pairwise byTsDesc := by
  intro l
  induction l with
  | nil => simp [sortDesc]
  | cons a l ih => exact pairwise_orderedInsertDesc a (sortDesc l) ih

theorem filter_orderedInsertDesc (s : String) (a : Tweet) : ∀ l,
    (orderedInsertDesc a l).filter (fun t => t.timestamp == s)
      = (a :: l).filter (fun t => t.timestamp == s) := by
  intro l
  induction l with
  | nil => rfl
  | cons b l ih =>
    by_cases hba : tsLe b.timestamp a.timestamp
    · rw [orderedInsertDesc, if_pos hba]
    · rw [orderedInsertDesc, if_neg hba]
      by_cases pa : a.timestamp = s
      · have pb : ¬ b.timestamp = s := by
          intro pb
          rw [pa] at hba
          rw [pb] at hba
          exact hba (tsLe_refl s)
        simp [List.filter_cons, pa, pb, ih]
      · simp [List.filter_cons, pa, ih]

theorem sortDesc_filter (s : String) : ∀ l,
    (sortDesc l).filter (fun t => t.timestamp == s)
      = l.filter (fun t => t.timestamp == s) := by
  intro l
  induction l with
  | nil => rfl
  | cons a l ih =>
    rw [sortDesc, filter_orderedInsertDesc]
    simp only [List.filter_cons, ih]

/-- C4: line 339's sort is a permutation of the collected list, pairwise
descending by the timestamp string (code-point lexicographic — Python string
comparison), stable (the subsequence at any fixed timestamp value is
untouched), and therefore every post with an empty timestamp comes after all
posts with non-empty timestamps. -/
theorem sortDesc_spec (l : List Tweet) :
    List.Perm (sortDesc l) l ∧
    (sortDesc l).Pairwise byTsDesc ∧
    (∀ s : String, (sortDesc l).filter (fun t => t.timestamp == s)
      = l.filter (fun t => t.timestamp == s)) ∧
    (sortDesc l).Pairwise (fun a b => a.timestamp = "" → b.timestamp = "") := by
  refine ⟨sortDesc_perm l, sortDesc_pairwise l, fun s => sortDesc_filter s l, ?_⟩
  refine (sortDesc_pairwise l).imp ?_
  intro a b hba hae
  rw [byTsDesc, hae] at hba
  exact tsLe_empty _ hba

/-! ## C8: the serializer's effect on the collected list -/

/-- C8 (amended): a `_save_to_markdown` call leaves the collected list a
permutation of what it was — the same Posts, none mutated, none added or
dropped — but in timestamp-descending order rather than the original
first-seen order, because line 339 sorts the list in place. -/
theorem save_effect_spec (l : List Tweet) :
    List.Perm (save_effect l) l ∧ (save_effect l).Pairwise byTsDesc := by
  cases l with
  | nil => exact ⟨List.Perm.refl _, List.Pairwise.nil⟩
  | cons a l => exact ⟨sortDesc_perm (a :: l), sortDesc_pairwise (a :: l)⟩

/-- C8 (counterexample): serializing the two-element collection
`[tOld, tNew]` (older bookmark first) reorders it — afterwards the loop's
list is `[tNew, tOld]` — so the collected list does not keep its pre-call
order. -/
theorem save_effect_counterexample : save_effect [tOld, tNew] ≠ [tOld, tNew] := fun h =>
  absurd (congrArg (List.map Tweet.id) h) (by decide)

/-! ## Lemmas: chunking -/

theorem chunksGo_nil (n fuel : Nat) : chunksGo n fuel [] = [] := by
  cases fuel <;> rfl

theorem chunksGo_flatten (n : Nat) (hn : 0 < n) : ∀ fuel (l : List Tweet),
    l.length ≤ fuel → (chunksGo n fuel l).flatten = l := by
  intro fuel
  induction fuel with
  | zero =>
    intro l hl
    cases l with
    | nil => rfl
    | cons t ts => simp at hl
  | succ f ih =>
    intro l hl
    cases l with
    | nil => rfl
    | cons t ts =>
      rw [chunksGo, List.flatten_cons, ih ((t :: ts).drop n) ?_, List.take_append_drop]
      rw [List.length_drop]
      simp only [List.length_cons] at hl ⊢
      omega

theorem chunksGo_mem (n : Nat) (hn : 0 < n) : ∀ fuel (l : List Tweet),
    ∀ c ∈ chunksGo n fuel l, c ≠ [] ∧ c.length ≤ n := by
  intro fuel
  induction fuel with
  | zero =>
    intro l c hc
    cases l <;> simp [chunksGo] at hc
  | succ f ih =>
    intro l c hc
    cases l with
    | nil => simp [chunksGo] at hc
    | cons t ts =>
      rw [chunksGo] at hc
      rcases List.mem_cons.1 hc with rfl | hc'
      · constructor
        · cases n with
          | zero => exact absurd hn (by simp)
          | succ m => simp [List.take_cons]
        · exact List.length_take_le n (t :: ts)
      · exact ih _ c hc'

theorem chunksGo_dropLast (n : Nat) (hn : 0 < n) : ∀ fuel (l : List Tweet),
    l.length ≤ fuel → ∀ c ∈ (chunksGo n fuel l).dropLast, c.length = n := by
  intro fuel
  induction fuel with
  | zero =>
    intro l hl c hc
    cases l with
    | nil => simp [chunksGo] at hc
    | cons t ts => simp at hl
  | succ f ih =>
    intro l hl c hc
    cases l with
    | nil => simp [chunksGo] at hc
    | cons t ts =>
      rw [chunksGo] at hc
      by_cases hr : chunksGo n f ((t :: ts).drop n) = []
      · rw [hr] at hc
        simp at hc
      · rw [List.dropLast_cons_of_ne_nil hr] at hc
        rcases List.mem_cons.1 hc with rfl | hc'
        · have hd : (t :: ts).drop n ≠ [] := by
            intro hd
            rw [hd, chunksGo_nil] at hr
            exact hr rfl
          have hlen : n ≤ (t :: ts).length := by
            by_contra hlt
            exact hd (List.drop_eq_nil_of_le (le_of_not_le hlt))
          rw [List.length_take]
          have hlen' : n ≤ ts.length + 1 := by simpa using hlen
          omega
        · refine ih ((t :: ts).drop n) ?_ c hc'
          rw [List.length_drop]
          simp only [List.length_cons] at hl ⊢
          omega

/-- C5: for every collected list and every positive chunk size, the slices
taken by `for i in range(0, len, n)` concatenate back to the whole list (each
element exactly once, no overlap), every chunk but possibly the last has
exactly `n` elements, and every chunk is nonempty with at most `n` elements. -/
theorem chunksOf_spec (n : Nat) (l : List Tweet) (h : 0 < n) :
    (chunksOf n l).flatten = l ∧
    (∀ c ∈ (chunksOf n l).dropLast, c.length = n) ∧
    (∀ c ∈ chunksOf n l, c ≠ [] ∧ c.length ≤ n) :=
  ⟨chunksGo_flatten n h l.length l (le_refl _),
   chunksGo_dropLast n h l.length l (le_refl _),
   chunksGo_mem n h l.length l⟩

/-- C5 (witness): the chunk partition at size 2 of a concrete 3-post list. -/
theorem chunksOf_spec_witness :
    (chunksOf 2 [demoA, demoB, demoC]).flatten = [demoA, demoB, demoC] ∧
    (∀ c ∈ (chunksOf 2 [demoA, demoB, demoC]).dropLast, c.length = 2) ∧
    (∀ c ∈ chunksOf 2 [demoA, demoB, demoC], c ≠ [] ∧ c.length ≤ 2) :=
  chunksOf_spec 2 [demoA, demoB, demoC] (by decide)

/-! ## Lemmas: the parser -/

/-- The defining equation of `parse_tweet_element` on a destructured node. -/
theorem parse_mk (anchorHrefs : List String) (userNameText tweetTextOpt timeOpt : Option String)
    (imgSrcs iframeSrcs cardHrefs : List String) (hasNativeVideo : Bool)
    (quotedNode : Option Node) :
    parse_tweet_element (Node.mk anchorHrefs userNameText tweetTextOpt timeOpt imgSrcs
        iframeSrcs cardHrefs hasNativeVideo quotedNode)
      = match (anchorHrefs.filter fun h => strContains h "/status/").head? with
        | none => none
        | some tweet_url =>
          if tweet_url = "" then none
          else
            some (Tweet.mk (statusIdOf tweet_url)
              ((pySplit (pyStrip (userNameText.getD "Unknown")) "\n").headD "Unknown")
              ((pySplit (pyStrip (userNameText.getD "Unknown")) "\n").getD 1 "@unknown")
              (tweetTextOpt.getD "") (timeOpt.getD "")
              ("https://twitter.com" ++ tweet_url)
              ((imgSrcs.filter fun s => strContains s "pbs.twimg.com/media").map subNameLarge)
              (videosChain iframeSrcs cardHrefs hasNativeVideo tweet_url)
              (match quotedNode with
               | none => none
               | some q =>
                 match parse_tweet_element q with
                 | some tq => if tq.id ≠ statusIdOf tweet_url then some tq else none
                 | none => none)) := by
  simp only [parse_tweet_element]

theorem nodup_foldl_step (f : List String → String → List String)
    (hf : ∀ vs s, f vs s = vs ∨ (s ∉ vs ∧ f vs s = vs ++ [s])) :
    ∀ (xs vs : List String), vs.Nodup → (xs.foldl f vs).Nodup := by
  intro xs
  induction xs with
  | nil => intro vs h; exact h
  | cons x xs ih =>
    intro vs h
    rcases hf vs x with he | ⟨hm, he⟩
    · rw [List.foldl_cons, he]; exact ih vs h
    · rw [List.foldl_cons, he]
      refine ih _ ?_
      simp [List.nodup_append, h, hm]

theorem iframeStep_cases (vs : List String) (s : String) :
    iframeStep vs s = vs ∨ (s ∉ vs ∧ iframeStep vs s = vs ++ [s]) := by
  rw [iframeStep]
  by_cases h1 : s = ""
  · simp [h1]
  · by_cases h2 : s ∈ vs
    · simp [h1, h2]
    · simp [h1, h2]

theorem cardStep_cases (vs : List String) (s : String) :
    cardStep vs s = vs ∨ (s ∉ vs ∧ cardStep vs s = vs ++ [s]) := by
  rw [cardStep]
  by_cases h1 : s = ""
  · simp [h1]
  · by_cases hd : videoDomains.any fun d => strContains s d
    · by_cases h2 : s ∈ vs
      · simp [h1, hd, h2]
      · simp [h1, hd, h2]
    · simp [h1, hd]

theorem iframeVids_nodup (srcs : List String) : (iframeVids srcs).Nodup := by
  rw [iframeVids]
  exact nodup_foldl_step iframeStep iframeStep_cases _ _
    (nodup_foldl_step iframeStep iframeStep_cases _ _ List.nodup_nil)

theorem cardVids_nodup (hrefs : List String) : (cardVids hrefs).Nodup :=
  nodup_foldl_step cardStep cardStep_cases _ _ List.nodup_nil

theorem videosChain_iframe (ifr cards : List String) (natv : Bool) (url : String)
    (h1 : iframeVids ifr ≠ []) :
    videosChain ifr cards natv url = iframeVids ifr := by
  have e1 : (iframeVids ifr).isEmpty = false := by
    simpa [List.isEmpty_iff] using h1
  simp only [videosChain, e1, Bool.false_eq_true, if_false]

theorem videosChain_card (ifr cards : List String) (natv : Bool) (url : String)
    (h1 : iframeVids ifr = []) (h2 : cardVids cards ≠ []) :
    videosChain ifr cards natv url = cardVids cards := by
  have e2 : (cardVids cards).isEmpty = false := by
    simpa [List.isEmpty_iff] using h2
  simp only [videosChain, h1, List.isEmpty_nil, if_true,
    show List.foldl cardStep [] cards = cardVids cards from rfl, e2,
    Bool.false_eq_true, if_false]

theorem videosChain_native (ifr cards : List String) (url : String)
    (h1 : iframeVids ifr = []) (h2 : cardVids cards = []) :
    videosChain ifr cards true url = ["https://twitter.com" ++ url] := by
  simp only [videosChain, h1, List.isEmpty_nil, if_true,
    show List.foldl cardStep [] cards = cardVids cards from rfl, h2]
  simp

theorem videosChain_noVideo (ifr cards : List String) (url : String)
    (h1 : iframeVids ifr = []) (h2 : cardVids cards = []) :
    videosChain ifr cards false url = [] := by
  simp only [videosChain, h1, List.isEmpty_nil, if_true,
    show List.foldl cardStep [] cards = cardVids cards from rfl, h2]
  simp

theorem videosChain_nodup (ifr cards : List String) (natv : Bool) (url : String) :
    (videosChain ifr cards natv url).Nodup := by
  by_cases h1 : iframeVids ifr = []
  · by_cases h2 : cardVids cards = []
    · cases natv
      · rw [videosChain_noVideo _ _ _ h1 h2]; exact List.nodup_nil
      · rw [videosChain_native _ _ _ h1 h2]; simp
    · rw [videosChain_card _ _ _ _ h1 h2]; exact cardVids_nodup cards
  · rw [videosChain_iframe _ _ _ _ h1]; exact iframeVids_nodup ifr

/-- Inversion: a successful parse exposes the selected permalink and the
construction of every field. -/
theorem parse_some_shape (node : Node) (t : Tweet) (h : parse_tweet_element node = some t) :
    ∃ tweet_url,
      (node.anchorHrefs.filter fun s => strContains s "/status/").head? = some tweet_url ∧
      tweet_url ≠ "" ∧
      t = Tweet.mk (statusIdOf tweet_url)
        ((pySplit (pyStrip (node.userNameText.getD "Unknown")) "\n").headD "Unknown")
        ((pySplit (pyStrip (node.userNameText.getD "Unknown")) "\n").getD 1 "@unknown")
        (node.tweetTextOpt.getD "") (node.timeOpt.getD "")
        ("https://twitter.com" ++ tweet_url)
        ((node.imgSrcs.filter fun s => strContains s "pbs.twimg.com/media").map subNameLarge)
        (videosChain node.iframeSrcs node.cardHrefs node.hasNativeVideo tweet_url)
        (match node.quotedNode with
         | none => none
         | some q =>
           match parse_tweet_element q with
           | some tq => if tq.id ≠ statusIdOf tweet_url then some tq else none
           | none => none) := by
  cases node with
  | mk a u x ti im ifr ca nv q =>
    rw [parse_mk] at h
    cases hh : (a.filter fun s => strContains s "/status/").head? with
    | none => rw [hh] at h; dsimp only at h; exact absurd h (by simp)
    | some url =>
      rw [hh] at h
      dsimp only at h
      by_cases hu : url = ""
      · rw [if_pos hu] at h; exact absurd h (by simp)
      · rw [if_neg hu] at h
        refine ⟨url, by simpa [Node.anchorHrefs] using hh, hu, ?_⟩
        simp only [Node.userNameText, Node.tweetTextOpt, Node.timeOpt, Node.imgSrcs,
          Node.iframeSrcs, Node.cardHrefs, Node.hasNativeVideo, Node.quotedNode]
        exact (Option.some.inj h).symm

/-- C3: the video rules are a strict-priority fallback chain. For any
successfully extracted post: the list has no duplicates; when the iframe rule
found anything, the videos are exactly its output (in particular a native
video element is ignored then); card links are consulted only when the iframe
rule found nothing; and the post's own permalink is the single entry exactly
when both earlier rules yielded nothing and a native video element exists. -/
theorem video_priority (node : Node) (t : Tweet)
    (h : parse_tweet_element node = some t) :
    t.videos.Nodup ∧
    (iframeVids node.iframeSrcs ≠ [] → t.videos = iframeVids node.iframeSrcs) ∧
    (iframeVids node.iframeSrcs = [] → cardVids node.cardHrefs ≠ [] →
      t.videos = cardVids node.cardHrefs) ∧
    (iframeVids node.iframeSrcs = [] → cardVids node.cardHrefs = [] →
      node.hasNativeVideo = true → t.videos = [t.url]) ∧
    (iframeVids node.iframeSrcs = [] → cardVids node.cardHrefs = [] →
      node.hasNativeVideo = false → t.videos = []) := by
  obtain ⟨url, hsel, hne, rfl⟩ := parse_some_shape node t h
  simp only [Tweet.videos, Tweet.url]
  refine ⟨videosChain_nodup _ _ _ _, ?_, ?_, ?_, ?_⟩
  · intro h1; exact videosChain_iframe _ _ _ _ h1
  · intro h1 h2; exact videosChain_card _ _ _ _ h1 h2
  · intro h1 h2 hn; rw [hn]; exact videosChain_native _ _ _ h1 h2
  · intro h1 h2 hn; rw [hn]; exact videosChain_noVideo _ _ _ h1 h2

/-- C3 (witness): a node carrying both a YouTube iframe embed and a native
video element parses to a post whose videos list is exactly the iframe entry. -/
theorem video_priority_witness :
    tC3.videos.Nodup ∧
    (iframeVids nodeC3.iframeSrcs ≠ [] → tC3.videos = iframeVids nodeC3.iframeSrcs) ∧
    (iframeVids nodeC3.iframeSrcs = [] → cardVids nodeC3.cardHrefs ≠ [] →
      tC3.videos = cardVids nodeC3.cardHrefs) ∧
    (iframeVids nodeC3.iframeSrcs = [] → cardVids nodeC3.cardHrefs = [] →
      nodeC3.hasNativeVideo = true → tC3.videos = [tC3.url]) ∧
    (iframeVids nodeC3.iframeSrcs = [] → cardVids nodeC3.cardHrefs = [] →
      nodeC3.hasNativeVideo = false → tC3.videos = []) :=
  video_priority nodeC3 tC3 rfl

/-- C2: the quoted-post cycle guard. For any successfully extracted post, a
present `quoted_tweet` always has an id different from the outer id; and a
nested result is accepted as `quoted_tweet` exactly when the quote container's
node parsed successfully to it and its id differs from the outer id. -/
theorem quote_cycle_guard (node : Node) (t : Tweet)
    (h : parse_tweet_element node = some t) :
    (∀ tq, t.quoted_tweet = some tq → tq.id ≠ t.id) ∧
    (∀ tq, t.quoted_tweet = some tq ↔
      ∃ q, node.quotedNode = some q ∧ parse_tweet_element q = some tq ∧ tq.id ≠ t.id) := by
  obtain ⟨url, hsel, hne, rfl⟩ := parse_some_shape node t h
  have hqt : ∀ (i an ah tx ts u : String) (im v : List String) (qo : Option Tweet),
      (Tweet.mk i an ah tx ts u im v qo).quoted_tweet = qo := fun _ _ _ _ _ _ _ _ _ => rfl
  have hid0 : ∀ (i an ah tx ts u : String) (im v : List String) (qo : Option Tweet),
      (Tweet.mk i an ah tx ts u im v qo).id = i := fun _ _ _ _ _ _ _ _ _ => rfl
  rw [hqt, hid0]
  cases hq : node.quotedNode with
  | none =>
    dsimp only
    exact ⟨fun tq htq => absurd htq (by simp), fun tq => by simp⟩
  | some q =>
    dsimp only
    cases hp : parse_tweet_element q with
    | none =>
      dsimp only
      exact ⟨fun tq htq => absurd htq (by simp), fun tq => by simp [hp]⟩
    | some tq' =>
      dsimp only
      by_cases hid : tq'.id ≠ statusIdOf url
      · rw [if_pos hid]
        refine ⟨fun tq htq => ?_, fun tq => ?_⟩
        · rcases Option.some.inj htq with rfl
          exact hid
        · constructor
          · intro htq
            rcases Option.some.inj htq with rfl
            exact ⟨q, rfl, hp, hid⟩
          · rintro ⟨q', hq', hp', hid'⟩
            rcases Option.some.inj hq' with rfl
            rw [hp] at hp'
            exact hp'
      · rw [if_neg hid]
        refine ⟨fun tq htq => absurd htq (by simp), fun tq => ?_⟩
        constructor
        · intro htq
          exact absurd htq (by simp)
        · rintro ⟨q', hq', hp', hid'⟩
          rcases Option.some.inj hq' with rfl
          rw [hp] at hp'
          rcases Option.some.inj hp' with rfl
          exact absurd hid' hid

/-- C2 (witness): a node whose quote container resolves to a nested post with
the outer post's own id parses with `quoted_tweet = none`. -/
theorem quote_cycle_guard_witness :
    (∀ tq, tC2.quoted_tweet = some tq → tq.id ≠ tC2.id) ∧
    (∀ tq, tC2.quoted_tweet = some tq ↔
      ∃ q, nodeC2.quotedNode = some q ∧ parse_tweet_element q = some tq ∧ tq.id ≠ tC2.id) :=
  quote_cycle_guard nodeC2 tC2 rfl

/-- C6 (amended): when an anchor href containing `/status/` exists, extraction
succeeds and the id is `statusIdOf` of the first such href (everything after
the last `/status/`, truncated at the first `?`), with the absolute permalink
prefixed; when no such href exists, extraction returns no result. -/
theorem id_derivation (node : Node) :
    match (node.anchorHrefs.filter fun s => strContains s "/status/").head? with
    | none => parse_tweet_element node = none
    | some href => ∃ t, parse_tweet_element node = some t ∧ t.id = statusIdOf href ∧
        t.url = "https://twitter.com" ++ href := by
  cases node with
  | mk a u x ti im ifr ca nv q =>
    dsimp only [Node.anchorHrefs]
    cases hl : a.filter (fun s => strContains s "/status/") with
    | nil =>
      dsimp only [List.head?]
      rw [parse_mk, hl]
      rfl
    | cons h0 rest =>
      dsimp only [List.head?]
      have hmem : h0 ∈ a.filter (fun s => strContains s "/status/") := by
        rw [hl]
        exact List.mem_cons_self h0 rest
      have hc : strContains h0 "/status/" = true := (List.mem_filter.1 hmem).2
      have hne : h0 ≠ "" := by
        intro he
        rw [he] at hc
        exact absurd hc (by decide)
      rw [parse_mk, hl]
      dsimp only [List.head?]
      rw [if_neg hne]
      exact ⟨_, rfl, rfl, rfl⟩

/-- C6 (counterexample): on the media permalink `/a/status/123/photo/1` the
code's id is `123/photo/1` — everything after `/status/` — while the path
segment immediately following `/status/` is `123`. -/
theorem id_derivation_counterexample :
    parse_tweet_element nodeC6 = some tC6 ∧
    tC6.id = "123/photo/1" ∧
    specStatusSegment "/a/status/123/photo/1" = "123" ∧
    tC6.id ≠ specStatusSegment "/a/status/123/photo/1" :=
  ⟨rfl, rfl, rfl, by decide⟩

/-! ## Lemmas: image-URL normalization (C10) -/

theorem subNameGo_id : ∀ (fuel : Nat) (cs : List Char), noNameMatch cs = true →
    subNameGo fuel cs = cs := by
  intro fuel
  induction fuel with
  | zero => intro cs _; cases cs <;> rfl
  | succ f ih =>
    intro cs h
    cases cs with
    | nil => rfl
    | cons c cs' =>
      rw [noNameMatch] at h
      have h12 := (Bool.and_eq_true _ _).mp h
      have h1 := h12.1
      have h2 := h12.2
      have hn : namePatLen (c :: cs') = none := Option.isNone_iff_eq_none.mp h1
      simp only [subNameGo, hn]
      rw [ih cs' h2]

theorem noNameMatch_sub (s : String) (h : noNameMatch s.data = true) :
    subNameLarge s = s := by
  cases s with
  | mk d =>
    rw [subNameLarge]
    rw [subNameGo_id _ _ h]

/-- C10: extracted images are exactly the media-host `img` sources mapped
through `subNameLarge`; the rewrite touches only occurrences of `&name=`
followed by word characters, so a URL with no such occurrence — in particular
one whose `name` size parameter is introduced by `?` as the first query
parameter, or one with no size parameter — is appended unchanged, while an
`&name=`-introduced size parameter is rewritten to `large`. -/
theorem image_normalization (node : Node) (t : Tweet)
    (h : parse_tweet_element node = some t) :
    t.images
      = (node.imgSrcs.filter fun s => strContains s "pbs.twimg.com/media").map subNameLarge ∧
    (∀ s : String, noNameMatch s.data = true → subNameLarge s = s) ∧
    subNameLarge "https://pbs.twimg.com/media/ab?format=jpg&name=small"
      = "https://pbs.twimg.com/media/ab?format=jpg&name=large" ∧
    subNameLarge "https://pbs.twimg.com/media/ab?name=small"
      = "https://pbs.twimg.com/media/ab?name=small" := by
  obtain ⟨url, hsel, hne, rfl⟩ := parse_some_shape node t h
  exact ⟨rfl, fun s hs => noNameMatch_sub s hs, rfl, rfl⟩

/-- C10 (witness): a node with one `&name=small` media image, one `?name=small`
media image and one non-media image parses with the first upgraded to
`&name=large`, the second untouched, and the third dropped by the media-host
filter. -/
theorem image_normalization_witness :
    tC10.images
      = (nodeC10.imgSrcs.filter fun s => strContains s "pbs.twimg.com/media").map subNameLarge ∧
    (∀ s : String, noNameMatch s.data = true → subNameLarge s = s) ∧
    subNameLarge "https://pbs.twimg.com/media/ab?format=jpg&name=small"
      = "https://pbs.twimg.com/media/ab?format=jpg&name=large" ∧
    subNameLarge "https://pbs.twimg.com/media/ab?name=small"
      = "https://pbs.twimg.com/media/ab?name=small" :=
  image_normalization nodeC10 tC10 rfl

/-! ## Lemmas: serializer output as a function of the clock reading (C7) -/

theorem buildFiles_eq_templates (inc : Bool) (total : Nat) (o ne now : String) :
    ∀ (cs : List (List Tweet)) (k : Nat),
    buildFiles inc total o ne now k cs
      = (buildTemplates inc total o ne k cs).map
          (fun tpl => (tpl.1, tpl.2.1 ++ now ++ tpl.2.2)) := by
  intro cs
  induction cs with
  | nil => intro k; rfl
  | cons c cs ih =>
    intro k
    rw [buildFiles, buildTemplates, List.map_cons, ih]

theorem save_eq_templates (n : Nat) (inc : Bool) (l : List Tweet) (now : String) :
    save_to_markdown n inc l now
      = (fileTemplates n inc l).map (fun tpl => (tpl.1, tpl.2.1 ++ now ++ tpl.2.2)) := by
  cases l with
  | nil => rfl
  | cons t ts =>
    simp only [save_to_markdown, fileTemplates]
    exact buildFiles_eq_templates inc _ _ _ now _ 1

theorem string_splice_cancel (pre post x y : String)
    (h : pre ++ x ++ post = pre ++ y ++ post) : x = y := by
  have hd := congrArg String.data h
  rw [String.data_append, String.data_append, String.data_append, String.data_append] at hd
  have h1 := List.append_cancel_right hd
  have h2 := List.append_cancel_left h1
  cases x
  cases y
  simp only at h2
  rw [h2]

theorem fileTemplates_ne_nil (n : Nat) (inc : Bool) (t : Tweet) (ts : List Tweet) :
    fileTemplates n inc (t :: ts) ≠ [] := by
  simp only [fileTemplates]
  have hlen : (sortDesc (t :: ts)).length = ts.length + 1 :=
    (sortDesc_perm (t :: ts)).length_eq.trans (by simp)
  cases hs : sortDesc (t :: ts) with
  | nil => rw [hs] at hlen; simp at hlen
  | cons u us =>
    have hch : chunksOf n (u :: us)
        = (u :: us).take n :: chunksGo n us.length ((u :: us).drop n) := by
      rw [chunksOf]
      simp only [List.length_cons]
      rw [chunksGo]
    rw [hch, buildTemplates]
    simp

/-- C7 (amended): the serializer's output is a pure function of the collected
list, the configuration, and the rendered clock reading: each file is a
clock-independent template with the clock string spliced into the export-time
line. Filenames never depend on the clock, and two serializations of the same
list produce byte-identical files exactly when nothing was written or the two
rendered clock readings coincide — with different clock readings the contents
differ. -/
theorem save_rerun_dependence (n : Nat) (inc : Bool) (l : List Tweet) (now1 now2 : String) :
    save_to_markdown n inc l now1
      = (fileTemplates n inc l).map (fun tpl => (tpl.1, tpl.2.1 ++ now1 ++ tpl.2.2)) ∧
    (save_to_markdown n inc l now1).map Prod.fst
      = (save_to_markdown n inc l now2).map Prod.fst ∧
    (save_to_markdown n inc l now1 = save_to_markdown n inc l now2 ↔
      l = [] ∨ now1 = now2) := by
  refine ⟨save_eq_templates n inc l now1, ?_, ?_⟩
  · rw [save_eq_templates n inc l now1, save_eq_templates n inc l now2,
      List.map_map, List.map_map]
    rfl
  · constructor
    · intro h
      cases l with
      | nil => exact Or.inl rfl
      | cons t ts =>
        refine Or.inr ?_
        rw [save_eq_templates n inc _ now1, save_eq_templates n inc _ now2] at h
        cases htpl : fileTemplates n inc (t :: ts) with
        | nil => exact absurd htpl (fileTemplates_ne_nil n inc t ts)
        | cons tpl rest =>
          rw [htpl, List.map_cons, List.map_cons] at h
          have hhead := List.head_eq_of_cons_eq h
          have hsnd := congrArg Prod.snd hhead
          exact string_splice_cancel tpl.2.1 tpl.2.2 now1 now2 hsnd
    · intro h
      rcases h with rfl | rfl
      · rfl
      · rfl

/-- C7 (counterexample): serializing the same one-element collection at two
different clock readings produces different bytes for chunk 1 — the
export-time line embeds `datetime.now()`, so a checkpoint re-run is not
byte-identical in general. -/
theorem save_rerun_counterexample :
    save_to_markdown 100 true [demoA] "2024-01-01 00:00:00"
      ≠ save_to_markdown 100 true [demoA] "2024-01-01 00:00:01" := by
  decide

/-! ## Lemmas: the checkpoint trigger (C9) -/

theorem save_effect_length (l : List Tweet) : (save_effect l).length = l.length := by
  cases l with
  | nil => rfl
  | cons a l => exact (sortDesc_perm (a :: l)).length_eq

theorem runLoop_foldl (batches : List (List Tweet)) :
    ∀ (seen : List String) (c : List Tweet) (sv : List Nat),
    (batches.foldl loopIter ⟨seen, c, sv⟩).seen = specSeen batches.flatten seen ∧
    (batches.foldl loopIter ⟨seen, c, sv⟩).collected.length
      = c.length + (specFirstSeen batches.flatten seen).length ∧
    (batches.foldl loopIter ⟨seen, c, sv⟩).saves
      = sv ++ (iterCounts batches seen c.length).filter
          (fun k => k % 500 == 0 && decide (0 < k)) := by
  induction batches with
  | nil => intro seen c sv; simp [specSeen, specFirstSeen, iterCounts]
  | cons b bs ih =>
    intro seen c sv
    have hp := foldl_collectStep b seen c
    have hlen : (c ++ specFirstSeen b seen).length
        = c.length + (specFirstSeen b seen).length := List.length_append _ _
    rw [List.foldl_cons]
    by_cases hcond : ((c.length + (specFirstSeen b seen).length) % 500 == 0
        && decide (0 < c.length + (specFirstSeen b seen).length)) = true
    · have hiter : loopIter ⟨seen, c, sv⟩ b
          = ⟨specSeen b seen, save_effect (c ++ specFirstSeen b seen),
             sv ++ [c.length + (specFirstSeen b seen).length]⟩ := by
        simp only [loopIter, hp, hlen]
        rw [if_pos hcond]
      rw [hiter]
      obtain ⟨ihs, ihl, ihv⟩ := ih (specSeen b seen)
        (save_effect (c ++ specFirstSeen b seen))
        (sv ++ [c.length + (specFirstSeen b seen).length])
      refine ⟨?_, ?_, ?_⟩
      · rw [ihs, List.flatten_cons, specSeen_append]
      · rw [ihl, List.flatten_cons, specFirstSeen_append, save_effect_length, hlen,
          List.length_append]
        omega
      · rw [ihv, save_effect_length, hlen, List.append_assoc]
        rw [iterCounts, List.filter_cons]
        rw [if_pos hcond]
        rfl
    · have hiter : loopIter ⟨seen, c, sv⟩ b
          = ⟨specSeen b seen, c ++ specFirstSeen b seen, sv⟩ := by
        simp only [loopIter, hp, hlen]
        rw [if_neg hcond]
      rw [hiter]
      obtain ⟨ihs, ihl, ihv⟩ := ih (specSeen b seen) (c ++ specFirstSeen b seen) sv
      refine ⟨?_, ?_, ?_⟩
      · rw [ihs, List.flatten_cons, specSeen_append]
      · rw [ihl, List.flatten_cons, specFirstSeen_append, hlen, List.length_append]
        omega
      · rw [ihv, hlen]
        rw [iterCounts, List.filter_cons]
        rw [if_neg hcond]

/-- C9 (amended): a checkpoint save is triggered at the end of exactly those
iterations whose accumulated unique-post count is a positive exact multiple
of 500 — the counts saved are the filter of the per-iteration counts by
`count % 500 == 0 and count > 0` — and the final collected count equals the
number of distinct-id posts in the whole extraction stream. Crossing a
500-boundary without landing exactly on a multiple triggers nothing. -/
theorem checkpoint_trigger (batches : List (List Tweet)) :
    (runLoop batches).saves
      = (iterCounts batches [] 0).filter (fun k => k % 500 == 0 && decide (0 < k)) ∧
    (runLoop batches).collected.length = (specFirstSeen batches.flatten []).length := by
  obtain ⟨hs, hl, hv⟩ := runLoop_foldl batches [] [] []
  refine ⟨?_, ?_⟩
  · rw [runLoop, hv]
    simp
  · rw [runLoop, hl]
    simp

theorem specFirstSeen_all_new : ∀ (b : List Tweet) (seen : List String),
    (b.map Tweet.id).Nodup → (∀ t ∈ b, t.id ∉ seen) → specFirstSeen b seen = b := by
  intro b
  induction b with
  | nil => intro seen _ _; rfl
  | cons t ts ih =>
    intro seen hnd hdis
    rw [List.map_cons, List.nodup_cons] at hnd
    rw [specFirstSeen, if_neg (hdis t (List.mem_cons_self t ts))]
    rw [ih (t.id :: seen) hnd.2]
    intro u hu
    rw [List.mem_cons]
    rintro (he | hm)
    · exact hnd.1 (he ▸ List.mem_map_of_mem Tweet.id hu)
    · exact hdis u (List.mem_cons_of_mem t hu) hm

theorem bigBatch_ids_nodup : (bigBatch.map Tweet.id).Nodup := by
  rw [bigBatch, List.map_map]
  refine List.Nodup.map ?_ (List.nodup_range 501)
  intro x y hxy
  have hd : List.replicate x 'a' = List.replicate y 'a' :=
    congrArg String.data hxy
  have := congrArg List.length hd
  simpa using this

/-- C9 (counterexample): one extraction batch of 501 distinct-id tweets takes
the collected count from 0 to 501, crossing the 500 boundary, yet no
checkpoint save is triggered — `501 % 500 ≠ 0`. -/
theorem checkpoint_counterexample :
    500 < (runLoop [bigBatch]).collected.length ∧ (runLoop [bigBatch]).saves = [] := by
  have hfs : specFirstSeen bigBatch [] = bigBatch :=
    specFirstSeen_all_new bigBatch [] bigBatch_ids_nodup (by simp)
  have hlen : bigBatch.length = 501 := by simp [bigBatch]
  have hflat : ([bigBatch] : List (List Tweet)).flatten = bigBatch := by
    rw [List.flatten_cons, List.flatten_nil, List.append_nil]
  obtain ⟨hs, hl, hv⟩ := runLoop_foldl [bigBatch] [] [] []
  constructor
  · rw [runLoop, hl, hflat, hfs, hlen]
    decide
  · rw [runLoop, hv, iterCounts, iterCounts, hfs, hlen]
    decide
